import Mathlib

/-!
# CedarLogic simulation kernel — verification development

Shallow embedding of the CedarLogic digital-logic simulation kernel and of
its WASM binding layer (`src/wasm/bindings.cpp`), together with proofs of
the specification claims.

The core engine (`logic_circuit.h` / `Circuit`, `Wire`, event queue) is not
part of the available sources; only its callers are.  Definitions for the
missing core are therefore modelled from the specification text (sections
3, 4.1–4.5, 6–8 of `spec.md`); each such definition carries a doc comment
starting with `Modelled from the spec:`.  Definitions for code that is
present (`CircuitWrapper` in `bindings.cpp`, `SVGExporter::escapeXML` in
`svgExport.cpp`) are translated directly from the source.
-/

namespace CedarLogic

/-- Identifiers are process-unique unsigned integers (`IDType`). -/
abbrev IDType := Nat

/-- Simulated time (`TimeType`), in simulated time units. -/
abbrev TimeType := Nat

/-- The five-valued logic domain
{ZERO, ONE, HI_Z, CONFLICT, UNKNOWN} (`logic_values.h`). -/
inductive LogicValue where
  | ZERO
  | ONE
  | HI_Z
  | CONFLICT
  | UNKNOWN
  deriving DecidableEq, Repr, Inhabited

open LogicValue

/-- Modelled from the spec: the per-bit combination rule of §4.1 for the
missing core wire-resolution code.  Given the multiset `D` of values driven
onto one bit by connected gate outputs: HI_Z drivers are transparent; with
no remaining driven value the bit is HI_Z; with exactly one distinct driven
value the bit takes that value (this covers the UNKNOWN-with-only-HI_Z
case); with two or more distinct driven values the bit is CONFLICT. -/
def resolveBit (D : List LogicValue) : LogicValue :=
  match (D.filter (fun v => v ≠ HI_Z)).dedup with
  | [] => HI_Z
  | [v] => v
  | _ :: _ :: _ => CONFLICT

/-- Modelled from the spec: a bus is resolved bit by bit, each bit
independently, using `resolveBit` (§4.1, §4.3). -/
def resolveBus (bits : List (List LogicValue)) : List LogicValue :=
  bits.map resolveBit

/-! ## Association-list helpers

The identifier-indexed tables of the spec (§9: "identifier-indexed arenas")
are embedded as association lists; `alookup` finds the first binding. -/

/-- First binding for key `k`. -/
def alookup {α β : Type} [DecidableEq α] (k : α) : List (α × β) → Option β
  | [] => none
  | (k2, v) :: rest => if k = k2 then some v else alookup k rest

/-- Replace the first binding for `k`, or append one. -/
def alistInsert {α β : Type} [DecidableEq α] (k : α) (v : β) : List (α × β) → List (α × β)
  | [] => [(k, v)]
  | (k2, v2) :: rest =>
      if k = k2 then (k, v) :: rest else (k2, v2) :: alistInsert k v rest

/-- Remove every binding for `k`. -/
def alistErase {α β : Type} [DecidableEq α] (k : α) (l : List (α × β)) : List (α × β) :=
  l.filter (fun p => p.1 ≠ k)

/-- Apply `f` to the first binding for `k` (the one `alookup` sees). -/
def updateFirst {α β : Type} [DecidableEq α] (k : α) (f : β → β) : List (α × β) → List (α × β)
  | [] => []
  | (k2, v) :: rest =>
      if k = k2 then (k2, f v) :: rest else (k2, v) :: updateFirst k f rest

/-! ## Data model -/

/-- Modelled from the spec: a Wire (§3): bit width, the ordered set of
gate-output connections driving it, the ordered set of gate-input
connections it feeds, and the last value recorded from each driver
(the resolved vector is the pure function `Wire.resolve` of these). -/
structure Wire where
  width : Nat
  drivers : List (IDType × String)
  consumers : List (IDType × String)
  driverValues : List ((IDType × String) × List LogicValue)
  deriving DecidableEq, Repr

/-- The values currently driven onto bit `i` of the wire by its connected
drivers; a driver with no recorded value (or too narrow a value) contributes
nothing, like a HI_Z driver. -/
def Wire.bitDrivers (w : Wire) (i : Nat) : List LogicValue :=
  w.drivers.filterMap (fun d => (alookup d w.driverValues).bind (fun vs => vs.get? i))

/-- Modelled from the spec: a wire's resolved value is always a pure function
of its current drivers' output values and the combination rule (§3, §4.1). -/
def Wire.resolve (w : Wire) : List LogicValue :=
  (List.range w.width).map (fun i => resolveBit (w.bitDrivers i))

/-- Modelled from the spec: a Gate (§3): type tag, port-to-wire connection
maps, and string-keyed behavioral parameters. -/
structure Gate where
  gateType : String
  inputs : List (String × IDType)
  outputs : List (String × IDType)
  params : List (String × String)
  deriving DecidableEq, Repr

/-- Modelled from the spec: an Event (§3): scheduled time, insertion sequence
number (used only to break time ties), and target. -/
inductive EventTarget where
  | wireTarget (wireID : IDType) (driver : IDType × String) (value : List LogicValue)
  | gateTarget (gateID : IDType)
  deriving DecidableEq, Repr

structure Event where
  time : TimeType
  seq : Nat
  target : EventTarget
  deriving DecidableEq, Repr

/-- Modelled from the spec: the Circuit (§3) owns all gates, all wires, the
event queue (kept in insertion order; `seq` strictly increases along it) and
the current simulated time. -/
structure Circuit where
  gates : List (IDType × Gate)
  wires : List (IDType × Wire)
  eventQueue : List Event
  nextSeq : Nat
  systemTime : TimeType
  nextGateID : IDType
  nextWireID : IDType
  deriving DecidableEq, Repr

/-- A freshly constructed circuit: no gates, no wires, empty queue, time 0. -/
def Circuit.initial : Circuit :=
  { gates := [], wires := [], eventQueue := [], nextSeq := 0,
    systemTime := 0, nextGateID := 0, nextWireID := 0 }

/-! ## Gate type catalogue -/

/-- Modelled from the spec: the gate-type catalogue's declared input ports
(§4.2, §8 scenarios use constant sources and a 2-input AND);
`none` means the type tag is unknown. -/
def gateTypeInputs : String → Option (List String)
  | "AND" => some ["IN_0", "IN_1"]
  | "CONST" => some []
  | _ => none

/-- Modelled from the spec: the gate-type catalogue's declared output ports. -/
def gateTypeOutputs : String → Option (List String)
  | "AND" => some ["OUT"]
  | "CONST" => some ["OUT"]
  | _ => none

/-- Decimal digit value of a character. -/
def digitVal (c : Char) : Option Nat :=
  if c = '0' then some 0
  else if c = '1' then some 1
  else if c = '2' then some 2
  else if c = '3' then some 3
  else if c = '4' then some 4
  else if c = '5' then some 5
  else if c = '6' then some 6
  else if c = '7' then some 7
  else if c = '8' then some 8
  else if c = '9' then some 9
  else none

/-- Parse a nonempty decimal numeral (the host-agnostic textual form in
which parameter data travels, §6). -/
def parseNat (s : String) : Option Nat :=
  if s.data.isEmpty then none
  else
    s.data.foldl (fun acc ch =>
      match acc, digitVal ch with
      | some n, some d => some (n * 10 + d)
      | _, _ => none) (some 0)

/-- Modelled from the spec: each gate type's declared parameter schema
(§4.2): CONST's VALUE must be "0" or "1"; every type's DELAY must be a
decimal number; any other key is unknown. -/
def paramValid (gt key value : String) : Bool :=
  match gt, key with
  | "CONST", "VALUE" => value == "0" || value == "1"
  | _, "DELAY" => (parseNat value).isSome
  | _, _ => false

/-- Propagation delay of a gate, from its DELAY parameter (default 1). -/
def gateDelay (params : List (String × String)) : Nat :=
  match alookup "DELAY" params with
  | some s => (parseNat s).getD 1
  | none => 1

/-- Logic AND on single-bit values: ZERO dominates, ONE ∧ ONE = ONE,
anything else is indeterminate. -/
def lvAnd : LogicValue → LogicValue → LogicValue
  | ZERO, _ => ZERO
  | _, ZERO => ZERO
  | ONE, ONE => ONE
  | _, _ => UNKNOWN

/-- The value of a CONST gate, from its VALUE parameter. -/
def constValue (params : List (String × String)) : LogicValue :=
  match alookup "VALUE" params with
  | some "0" => ZERO
  | some "1" => ONE
  | _ => UNKNOWN

/-- First bit of a named input in an evaluation environment; an
unconnected or undriven input reads as UNKNOWN. -/
def inputBit (ins : List (String × List LogicValue)) (p : String) : LogicValue :=
  match alookup p ins with
  | some (v :: _) => v
  | _ => UNKNOWN

/-- Modelled from the spec: the gate evaluation contract (§4.2):
`evaluate(inputs) -> outputs`, a pure function of the current input values
and parameters. -/
def evalGate (gt : String) (params : List (String × String))
    (ins : List (String × List LogicValue)) : List (String × List LogicValue) :=
  match gt with
  | "CONST" => [("OUT", [constValue params])]
  | "AND" => [("OUT", [lvAnd (inputBit ins "IN_0") (inputBit ins "IN_1")])]
  | _ => []

/-! ## Circuit operations -/

/-- Update the first wire entry with key `wid`. -/
def Circuit.updateWire (c : Circuit) (wid : IDType) (f : Wire → Wire) : Circuit :=
  { c with wires := updateFirst wid f c.wires }

/-- Update the first gate entry with key `gid`. -/
def Circuit.updateGate (c : Circuit) (gid : IDType) (f : Gate → Gate) : Circuit :=
  { c with gates := updateFirst gid f c.gates }

/-- Append an event at time `t` with the next insertion sequence number. -/
def Circuit.pushEvent (c : Circuit) (t : TimeType) (tgt : EventTarget) : Circuit :=
  { c with eventQueue := c.eventQueue ++ [⟨t, c.nextSeq, tgt⟩],
           nextSeq := c.nextSeq + 1 }

/-- Modelled from the spec: create gate(type, optional explicit id) (§4.5):
fails if the id is already in use or the type tag is unknown;
auto-assignment always issues fresh values (§3). -/
def Circuit.newGate (c : Circuit) (gt : String) (gateID : Option IDType) :
    Circuit × Option IDType :=
  if (gateTypeInputs gt).isNone then (c, none)
  else
    match gateID with
    | some gid =>
        if (alookup gid c.gates).isSome then (c, none)
        else ({ c with gates := alistInsert gid ⟨gt, [], [], []⟩ c.gates,
                       nextGateID := max c.nextGateID (gid + 1) }, some gid)
    | none =>
        ({ c with gates := alistInsert c.nextGateID ⟨gt, [], [], []⟩ c.gates,
                  nextGateID := c.nextGateID + 1 }, some c.nextGateID)

/-- Modelled from the spec: create wire(optional explicit id, width) (§4.5):
fails if the id is already in use. -/
def Circuit.newWire (c : Circuit) (wireID : Option IDType) (width : Nat) :
    Circuit × Option IDType :=
  match wireID with
  | some wid =>
      if (alookup wid c.wires).isSome then (c, none)
      else ({ c with wires := alistInsert wid ⟨width, [], [], []⟩ c.wires,
                     nextWireID := max c.nextWireID (wid + 1) }, some wid)
  | none =>
      ({ c with wires := alistInsert c.nextWireID ⟨width, [], [], []⟩ c.wires,
                nextWireID := c.nextWireID + 1 }, some c.nextWireID)

/-- Remove every trace of gate `gid` from a wire's connection sets. -/
def Wire.detachGate (w : Wire) (gid : IDType) : Wire :=
  { w with drivers := w.drivers.filter (fun d => d.1 ≠ gid),
           consumers := w.consumers.filter (fun d => d.1 ≠ gid),
           driverValues := w.driverValues.filter (fun p => p.1.1 ≠ gid) }

/-- Modelled from the spec: delete gate(id) (§4.5): detaches the gate from
every wire first, then removes it; fails silently if the id is unknown —
idempotent. -/
def Circuit.deleteGate (c : Circuit) (gid : IDType) : Circuit :=
  if (alookup gid c.gates).isSome then
    { c with gates := alistErase gid c.gates,
             wires := c.wires.map (fun p => (p.1, p.2.detachGate gid)) }
  else c

/-- Remove every connection to wire `wid` from a gate's port maps. -/
def Gate.detachWire (g : Gate) (wid : IDType) : Gate :=
  { g with inputs := g.inputs.filter (fun p => p.2 ≠ wid),
           outputs := g.outputs.filter (fun p => p.2 ≠ wid) }

/-- Modelled from the spec: delete wire(id) (§4.5): performs implicit
disconnection from all gates, then removes it; idempotent. -/
def Circuit.deleteWire (c : Circuit) (wid : IDType) : Circuit :=
  if (alookup wid c.wires).isSome then
    { c with wires := alistErase wid c.wires,
             gates := c.gates.map (fun p => (p.1, p.2.detachWire wid)) }
  else c

/-- Modelled from the spec: connect gate input (§4.5): fails if gate, wire or
port is unknown or on width mismatch (gate ports are one bit wide); replaces
any prior connection on that port. -/
def Circuit.connectGateInput (c : Circuit) (gid : IDType) (portID : String)
    (wid : IDType) : Circuit × Option IDType :=
  match alookup gid c.gates, alookup wid c.wires with
  | some g, some w =>
      if ((gateTypeInputs g.gateType).getD []).contains portID && w.width == 1 then
        let c1 :=
          match alookup portID g.inputs with
          | some oldWid =>
              c.updateWire oldWid (fun ow =>
                { ow with consumers := ow.consumers.filter (fun d => d ≠ (gid, portID)) })
          | none => c
        let c2 := c1.updateGate gid (fun g2 =>
          { g2 with inputs := alistInsert portID wid g2.inputs })
        let c3 := c2.updateWire wid (fun w2 =>
          { w2 with consumers := w2.consumers ++ [(gid, portID)] })
        (c3, some wid)
      else (c, none)
  | _, _ => (c, none)

/-- Modelled from the spec: connect gate output (§4.5): fails if gate, wire or
port is unknown or on width mismatch; replaces any prior connection on that
port. -/
def Circuit.connectGateOutput (c : Circuit) (gid : IDType) (portID : String)
    (wid : IDType) : Circuit × Option IDType :=
  match alookup gid c.gates, alookup wid c.wires with
  | some g, some w =>
      if ((gateTypeOutputs g.gateType).getD []).contains portID && w.width == 1 then
        let c1 :=
          match alookup portID g.outputs with
          | some oldWid =>
              c.updateWire oldWid (fun ow =>
                { ow with drivers := ow.drivers.filter (fun d => d ≠ (gid, portID)),
                          driverValues :=
                            ow.driverValues.filter (fun p => p.1 ≠ (gid, portID)) })
          | none => c
        let c2 := c1.updateGate gid (fun g2 =>
          { g2 with outputs := alistInsert portID wid g2.outputs })
        let c3 := c2.updateWire wid (fun w2 =>
          { w2 with drivers := w2.drivers ++ [(gid, portID)] })
        (c3, some wid)
      else (c, none)
  | _, _ => (c, none)

/-- Modelled from the spec: disconnect gate input (§4.5): removes the wire's
reference to this gate; idempotent. -/
def Circuit.disconnectGateInput (c : Circuit) (gid : IDType) (portID : String) :
    Circuit :=
  match alookup gid c.gates with
  | some g =>
      match alookup portID g.inputs with
      | some wid =>
          let c1 := c.updateGate gid (fun g2 =>
            { g2 with inputs := alistErase portID g2.inputs })
          c1.updateWire wid (fun w =>
            { w with consumers := w.consumers.filter (fun d => d ≠ (gid, portID)) })
      | none => c
  | none => c

/-- Modelled from the spec: disconnect gate output (§4.5): removes the wire's
reference to this gate; idempotent. -/
def Circuit.disconnectGateOutput (c : Circuit) (gid : IDType) (portID : String) :
    Circuit :=
  match alookup gid c.gates with
  | some g =>
      match alookup portID g.outputs with
      | some wid =>
          let c1 := c.updateGate gid (fun g2 =>
            { g2 with outputs := alistErase portID g2.outputs })
          c1.updateWire wid (fun w =>
            { w with drivers := w.drivers.filter (fun d => d ≠ (gid, portID)),
                     driverValues := w.driverValues.filter (fun p => p.1 ≠ (gid, portID)) })
      | none => c
  | none => c

/-- Modelled from the spec: parameter setters validate against the gate
type's declared schema; an invalid key or an out-of-range value fails
without mutating state (§4.2).  A successful change schedules a
re-evaluation event for the gate at the current time, so that the changed
behavior propagates on the next step (§4.3). -/
def Circuit.setGateParameter (c : Circuit) (gid : IDType) (key value : String) :
    Circuit × Bool :=
  match alookup gid c.gates with
  | some g =>
      if paramValid g.gateType key value then
        ((c.updateGate gid (fun g2 =>
            { g2 with params := alistInsert key value g2.params })).pushEvent
              c.systemTime (.gateTarget gid),
         true)
      else (c, false)
  | none => (c, false)

/-- Modelled from the spec: get parameter (§4.5). -/
def Circuit.getGateParameter (c : Circuit) (gid : IDType) (key : String) : String :=
  match alookup gid c.gates with
  | some g => (alookup key g.params).getD ""
  | none => ""

/-- Modelled from the spec: query of a wire's current resolved per-bit value
vector (§6: `getWireState(wireId) -> per-bit value vector`). -/
def Circuit.getWireState (c : Circuit) (wid : IDType) : List LogicValue :=
  match alookup wid c.wires with
  | some w => w.resolve
  | none => []

/-- Modelled from the spec: query of the current simulated time (§6). -/
def Circuit.getSystemTime (c : Circuit) : TimeType :=
  c.systemTime

/-- Modelled from the spec: query of all gate identifiers (§6). -/
def Circuit.getGateIDs (c : Circuit) : List IDType :=
  c.gates.map Prod.fst

/-- Modelled from the spec: `destroyAllEvents` empties the queue and does not
touch current time or graph topology (§4.4, §8). -/
def Circuit.destroyAllEvents (c : Circuit) : Circuit :=
  { c with eventQueue := [] }

/-! ## Event scheduler and stepping -/

/-- The current resolved values at every declared input port of a gate;
an unconnected port reads an empty vector. -/
def Circuit.gateInputValues (c : Circuit) (g : Gate) : List (String × List LogicValue) :=
  ((gateTypeInputs g.gateType).getD []).map (fun p =>
    (p, match alookup p g.inputs with
        | some wid => c.getWireState wid
        | none => []))

/-- Modelled from the spec: re-evaluate a gate at slot time `t` and schedule
each changed output as a wire event at `t + delay` (§4.2: output changes are
never applied synchronously; a zero delay means "next drain of the current
time slot"). -/
def Circuit.evaluateGate (c : Circuit) (t : TimeType) (gid : IDType) : Circuit :=
  match alookup gid c.gates with
  | some g =>
      (evalGate g.gateType g.params (c.gateInputValues g)).foldl (fun acc pv =>
        match alookup pv.1 g.outputs with
        | some wid =>
            match alookup wid acc.wires with
            | some w =>
                if alookup (gid, pv.1) w.driverValues = some pv.2 then acc
                else acc.pushEvent (t + gateDelay g.params)
                       (.wireTarget wid (gid, pv.1) pv.2)
            | none => acc
        | none => acc) c
  | none => c

/-- The changed-wire collection (C++ `ID_SET<IDType>`, a `std::set`): a
strictly ascending duplicate-free list of wire identifiers; `idInsert` is
`std::set::insert`. -/
def idInsert (x : IDType) : List IDType → List IDType
  | [] => [x]
  | y :: rest =>
      if x < y then x :: y :: rest
      else if x = y then y :: rest
      else y :: idInsert x rest

/-- Insert every element of `l` (C++ `std::set::insert` over a range). -/
def idUnion (s l : List IDType) : List IDType :=
  l.foldl (fun a x => idInsert x a) s

/-- Modelled from the spec: apply one event to its target at slot time `t`
(§4.3).  A wire event records the driver's new value and re-resolves the
wire; if the resolved vector changed, the wire is reported changed and a
re-evaluation event is scheduled for every connected gate input.  A gate
event re-evaluates the gate. -/
def Circuit.applyEvent (c : Circuit) (t : TimeType) (e : Event) :
    Circuit × List IDType :=
  match e.target with
  | .wireTarget wid driver value =>
      match alookup wid c.wires with
      | some w =>
          let w2 := { w with driverValues := alistInsert driver value w.driverValues }
          let c1 := c.updateWire wid (fun _ => w2)
          if w2.resolve = w.resolve then (c1, [])
          else (w.consumers.foldl (fun acc d => acc.pushEvent t (.gateTarget d.1)) c1,
                [wid])
      | none => (c, [])
  | .gateTarget gid => (c.evaluateGate t gid, [])

/-- Process a batch of events in order, accumulating the changed-wire set. -/
def Circuit.processEvents (c : Circuit) (t : TimeType) : List Event → Circuit × List IDType
  | [] => (c, [])
  | e :: rest =>
      match c.applyEvent t e with
      | (c1, s1) =>
          match c1.processEvents t rest with
          | (c2, s2) => (c2, idUnion s1 s2)

/-- Minimum scheduled time among queued events. -/
def listMinTime : List Event → Option TimeType
  | [] => none
  | e :: rest =>
      some (match listMinTime rest with
            | none => e.time
            | some t => min e.time t)

/-- Modelled from the spec: drain one time slot (§4.4): take every queued
event whose time equals `t` (they are in insertion order), process them,
and repeat while processing produced further time-`t` events.  The iteration
is bounded (§4.3, §7c: same-instant oscillation is cut off by a bound);
the returned Boolean is true when the slot was fully drained, and the
returned list is the trace of processed events in processing order. -/
def Circuit.drainSlot (c : Circuit) (t : TimeType) :
    Nat → Circuit × List IDType × List Event × Bool
  | 0 => (c, [], [], false)
  | fuel + 1 =>
      let batch := c.eventQueue.filter (fun e => e.time = t)
      if batch.isEmpty then (c, [], [], true)
      else
        let c1 := { c with eventQueue := c.eventQueue.filter (fun e => ¬ e.time = t) }
        let r1 := c1.processEvents t batch
        let r2 := r1.1.drainSlot t fuel
        (r2.1, idUnion r1.2 r2.2.1, batch ++ r2.2.2.1, r2.2.2.2)

/-- Modelled from the spec: `step()` (§4.4): drain and process every event
whose time equals the queue's current minimum time, in insertion order,
repeating until no event at that time remains, then set the current time to
the next event's time (or leave it unchanged if the queue is empty) and
return the set of wires whose resolved value changed.  Returns
(new circuit, changed wires, processed-event trace, drain-completed flag). -/
def Circuit.step (c : Circuit) (fuel : Nat) :
    Circuit × List IDType × List Event × Bool :=
  match listMinTime c.eventQueue with
  | none => (c, [], [], true)
  | some t =>
      match c.drainSlot t fuel with
      | (c1, changed, trace, done) =>
          ({ c1 with systemTime := (listMinTime c1.eventQueue).getD c1.systemTime },
           changed, trace, done)

/-- Apply one evaluated output of gate `gid` directly to its connected wire
(the immediate application used by the gates-only step variant): record the
driven value, and if the wire's resolved vector changed, report it and
schedule re-evaluation events for its consumer gates at the current time. -/
def Circuit.driveOutput (c : Circuit) (gid : IDType) (g : Gate)
    (pv : String × List LogicValue) : Circuit × List IDType :=
  match alookup pv.1 g.outputs with
  | none => (c, [])
  | some wid =>
      match alookup wid c.wires with
      | none => (c, [])
      | some w =>
          let w2 := { w with driverValues := alistInsert (gid, pv.1) pv.2 w.driverValues }
          let c1 := c.updateWire wid (fun _ => w2)
          if w2.resolve = w.resolve then (c1, [])
          else
            (w.consumers.foldl (fun a d => a.pushEvent a.systemTime (.gateTarget d.1)) c1,
             [wid])

/-- Apply a list of evaluated outputs in order. -/
def Circuit.driveOutputs (c : Circuit) (gid : IDType) (g : Gate) :
    List (String × List LogicValue) → Circuit × List IDType
  | [] => (c, [])
  | pv :: rest =>
      match c.driveOutput gid g pv with
      | (c1, s1) =>
          match c1.driveOutputs gid g rest with
          | (c2, s2) => (c2, idUnion s1 s2)

/-- Modelled from the spec: force re-evaluation of one gate, applying its
output values directly to the connected wires (§4.4 gates-only variant). -/
def Circuit.stepGate (c : Circuit) (gid : IDType) : Circuit × List IDType :=
  match alookup gid c.gates with
  | none => (c, [])
  | some g => c.driveOutputs gid g (evalGate g.gateType g.params (c.gateInputValues g))

/-- Re-evaluate the listed gates in order, accumulating changed wires. -/
def Circuit.stepGatesFrom (c : Circuit) : List IDType → Circuit × List IDType
  | [] => (c, [])
  | gid :: rest =>
      match c.stepGate gid with
      | (c1, s1) =>
          match c1.stepGatesFrom rest with
          | (c2, s2) => (c2, idUnion s1 s2)

/-- Modelled from the spec: the gates-only step variant (§4.4): force
re-evaluation of all gates, without consuming events from the time queue and
without advancing the current time. -/
def Circuit.stepOnlyGates (c : Circuit) : Circuit × List IDType :=
  c.stepGatesFrom (c.gates.map Prod.fst)

/-! ## The WASM binding layer (`src/wasm/bindings.cpp`) -/

namespace CircuitWrapper

/-- The loop body of `CircuitWrapper::stepN`: call `circuit.step` repeatedly,
inserting each call's changed wires into the accumulated set. -/
def stepNLoop (fuel : Nat) : Nat → Circuit → List IDType → Circuit × List IDType
  | 0, c, acc => (c, acc)
  | n + 1, c, acc =>
      match c.step fuel with
      | (c2, changed, _, _) => stepNLoop fuel n c2 (idUnion acc changed)

/-- `CircuitWrapper::stepN` from `src/wasm/bindings.cpp` (lines 101–123):
step the simulation `n` times, accumulating the union `allChanged` of the
per-step changed-wire sets. -/
def stepN (fuel n : Nat) (c : Circuit) : Circuit × List IDType :=
  stepNLoop fuel n c []

/-- The reporting loop of `CircuitWrapper::stepN`: after the `n` step calls,
one entry per changed wire (in the set's ascending order, as for C++
`std::set`), with the state queried from the final circuit. -/
def stepNReport (fuel n : Nat) (c : Circuit) : List (IDType × List LogicValue) :=
  let r := stepN fuel n c
  r.2.map (fun wid => (wid, r.1.getWireState wid))

end CircuitWrapper

/-- The spec-side observer for C3: the circuit reached by calling `step`
`n` times in succession. -/
def stepIter (fuel : Nat) : Nat → Circuit → Circuit
  | 0, c => c
  | n + 1, c => stepIter fuel n (c.step fuel).1

/-- The spec-side observer for C3: all changed wires reported by `n`
successive `step` calls (with repetitions; the union is taken up to
membership). -/
def unionChanged (fuel : Nat) : Nat → Circuit → List IDType
  | 0, _ => []
  | n + 1, c => (c.step fuel).2.1 ++ unionChanged fuel n (c.step fuel).1

/-! ## Invariants -/

/-- The event queue invariant maintained by every operation: the queue list
is in insertion order (sequence numbers strictly increase along it), all
sequence numbers are below the next one to be issued, and no pending event
is scheduled before the current time. -/
def QueueWF (c : Circuit) : Prop :=
  c.eventQueue.Pairwise (fun a b => a.seq < b.seq) ∧
  (∀ e ∈ c.eventQueue, e.seq < c.nextSeq) ∧
  (∀ e ∈ c.eventQueue, c.systemTime ≤ e.time)

/-- A circuit evolution that only appends to the queue: time is untouched,
the sequence counter does not decrease, and every queued event either was
already queued or is new (its sequence number is at least the old counter). -/
def QueueEvolves (c c2 : Circuit) : Prop :=
  c2.systemTime = c.systemTime ∧ c.nextSeq ≤ c2.nextSeq ∧
  ∀ e ∈ c2.eventQueue, e ∈ c.eventQueue ∨ c.nextSeq ≤ e.seq

/-- One gate is settled: the value it drives on each connected output wire
already equals its evaluation on the current resolved input values. -/
def Circuit.gateSettled (c : Circuit) (gid : IDType) : Bool :=
  match alookup gid c.gates with
  | none => true
  | some g =>
      (evalGate g.gateType g.params (c.gateInputValues g)).all (fun pv =>
        match alookup pv.1 g.outputs with
        | none => true
        | some wid =>
            match alookup wid c.wires with
            | none => true
            | some w => alookup (gid, pv.1) w.driverValues == some pv.2)

/-- No gate input has changed since the last gates-only step: every gate's
recorded driven output values already match its evaluation on the current
inputs. -/
def Circuit.settled (c : Circuit) : Prop :=
  ∀ gid ∈ c.getGateIDs, c.gateSettled gid = true

/-! ## Demonstration circuit

A small circuit built entirely through the public API: constant sources on
gates 1 and 3 drive wires 10 and 11, which feed the 2-input AND gate 2
(propagation delay 5) whose output drives wire 12. -/

def demoBuild : Circuit :=
  let c := Circuit.initial
  let c := (c.newGate "CONST" (some 1)).1
  let c := (c.setGateParameter 1 "VALUE" "1").1
  let c := (c.newGate "CONST" (some 3)).1
  let c := (c.setGateParameter 3 "VALUE" "1").1
  let c := (c.newGate "AND" (some 2)).1
  let c := (c.setGateParameter 2 "DELAY" "5").1
  let c := (c.newWire (some 10) 1).1
  let c := (c.newWire (some 11) 1).1
  let c := (c.newWire (some 12) 1).1
  let c := (c.connectGateOutput 1 "OUT" 10).1
  let c := (c.connectGateOutput 3 "OUT" 11).1
  let c := (c.connectGateOutput 2 "OUT" 12).1
  let c := (c.connectGateInput 2 "IN_0" 10).1
  let c := (c.connectGateInput 2 "IN_1" 11).1
  c

/-- The demonstration circuit after letting combinational outputs settle and
draining the pending re-evaluation events. -/
def demoSettled : Circuit :=
  ((demoBuild.stepOnlyGates).1.step 8).1

/-- The settled demonstration circuit after flipping the constant source on
gate 1 to ZERO: one re-evaluation event is pending at the current time. -/
def demoFlip : Circuit :=
  (demoSettled.setGateParameter 1 "VALUE" "0").1

/-- The circuit after the flip has propagated through three steps: the AND
gate's delay of 5 has carried the simulated time to 6. -/
def demoEnd : Circuit :=
  (((demoFlip.step 8).1.step 8).1.step 8).1

/-- A tiny circuit for concrete checks: constant-source gate 1 drives
wire 10. -/
def demoTiny : Circuit :=
  let c := Circuit.initial
  let c := (c.newGate "CONST" (some 1)).1
  let c := (c.newWire (some 10) 1).1
  (c.connectGateOutput 1 "OUT" 10).1

/-! ## `SVGExporter::escapeXML` (`src/src/gui/svgExport.cpp`, lines 41–55) -/

/-- One iteration of the `escapeXML` loop: the replacement of a single
character (the five XML special characters become entities, every other
character is kept). -/
def escapeChar (c : Char) : List Char :=
  if c = '&' then "&amp;".data
  else if c = '<' then "&lt;".data
  else if c = '>' then "&gt;".data
  else if c = Char.ofNat 34 then "&quot;".data
  else if c = Char.ofNat 39 then "&apos;".data
  else [c]

/-- `SVGExporter::escapeXML`: build the result by appending, for each input
character in order, its replacement. -/
def escapeXML (s : String) : String :=
  String.mk (s.data.flatMap escapeChar)

instance (c : Circuit) : Decidable (QueueWF c) := by
  unfold QueueWF; infer_instance

instance (c : Circuit) : Decidable (c.settled) := by
  unfold Circuit.settled; infer_instance

/-! ## Association-list lemmas -/

theorem alookup_alistInsert_self {α β : Type} [DecidableEq α] (k : α) (v : β)
    (l : List (α × β)) : alookup k (alistInsert k v l) = some v := by
  induction l with
  | nil => simp [alookup, alistInsert]
  | cons p rest ih =>
      by_cases h : k = p.1
      · simp [alistInsert, h, alookup]
      · simp [alistInsert, h, alookup, ih]

theorem alistInsert_of_alookup_eq {α β : Type} [DecidableEq α] {k : α} {v : β}
    {l : List (α × β)} (h : alookup k l = some v) : alistInsert k v l = l := by
  induction l with
  | nil => simp [alookup] at h
  | cons p rest ih =>
      rcases p with ⟨pk, pv⟩
      by_cases hk : k = pk
      · subst hk
        simp [alookup] at h
        simp [alistInsert, h]
      · simp [alookup, hk] at h
        simp [alistInsert, hk, ih h]

theorem updateFirst_of_alookup {α β : Type} [DecidableEq α] {k : α} {v : β}
    {l : List (α × β)} (f : β → β) (h : alookup k l = some v) (hf : f v = v) :
    updateFirst k f l = l := by
  induction l with
  | nil => simp [alookup] at h
  | cons p rest ih =>
      rcases p with ⟨pk, pv⟩
      by_cases hk : k = pk
      · subst hk
        simp [alookup] at h
        simp [updateFirst, h, hf]
      · simp [alookup, hk] at h
        simp [updateFirst, hk, ih h]

theorem alookup_map_value {α β γ : Type} [DecidableEq α] (k : α) (f : β → γ)
    (l : List (α × β)) :
    alookup k (l.map (fun p => (p.1, f p.2))) = (alookup k l).map f := by
  induction l with
  | nil => simp [alookup]
  | cons p rest ih =>
      by_cases hk : k = p.1
      · simp [alookup, hk]
      · simp [alookup, hk, ih]

theorem alookup_alistErase {α β : Type} [DecidableEq α] (k : α)
    (l : List (α × β)) : alookup k (alistErase k l) = none := by
  induction l with
  | nil => simp [alookup, alistErase]
  | cons p rest ih =>
      by_cases hk : k = p.1
      · simpa [alistErase, hk.symm] using (by simpa [alistErase] using ih)
      · simp [alistErase] at ih ⊢
        simp [Ne.symm hk, alookup, hk, ih]

theorem alookup_of_mem_keys {α β : Type} [DecidableEq α] {k : α}
    {l : List (α × β)} (h : k ∈ l.map Prod.fst) : ∃ v, alookup k l = some v := by
  induction l with
  | nil => simp at h
  | cons p rest ih =>
      by_cases hk : k = p.1
      · exact ⟨p.2, by simp [alookup, hk]⟩
      · simp [hk] at h
        rcases h with ⟨x, hx⟩
        have h2 : k ∈ rest.map Prod.fst := List.mem_map.mpr ⟨(k, x), hx, rfl⟩
        simpa [alookup, hk] using ih h2

/-! ## C1: the per-bit combination rule -/

theorem dedup_all_eq {α : Type} [DecidableEq α] {l : List α} {v : α}
    (hne : l ≠ []) (hall : ∀ x ∈ l, x = v) : l.dedup = [v] := by
  induction l with
  | nil => exact absurd rfl hne
  | cons x rest ih =>
      have hx : x = v := hall x (List.mem_cons_self x rest)
      subst hx
      cases hr : rest with
      | nil => simp
      | cons y t =>
          have hy : y = x := hall y (by simp [hr])
          have hmem : x ∈ y :: t := by rw [hy]; exact List.mem_cons_self x t
          rw [List.dedup_cons_of_mem hmem, ← hr]
          exact ih (by simp [hr]) (fun z hz => hall z (List.mem_cons_of_mem x hz))

theorem resolveBit_cases (D : List LogicValue) :
    resolveBit D =
      match (D.filter (fun v => v ≠ HI_Z)).dedup with
      | [] => HI_Z
      | [v] => v
      | _ :: _ :: _ => CONFLICT := rfl

theorem resolveBit_of_single {D : List LogicValue} {v : LogicValue}
    (hvne : v ≠ HI_Z) (hv : v ∈ D) (hall : ∀ w ∈ D, w = HI_Z ∨ w = v) :
    resolveBit D = v := by
  have hvF : v ∈ D.filter (fun x => x ≠ HI_Z) :=
    List.mem_filter.mpr ⟨hv, by simpa using hvne⟩
  have hallF : ∀ x ∈ D.filter (fun x => x ≠ HI_Z), x = v := by
    intro x hx
    rcases List.mem_filter.mp hx with ⟨hxD, hxne⟩
    rcases hall x hxD with h | h
    · exact absurd h (by simpa using hxne)
    · exact h
  have hdedup := dedup_all_eq (List.ne_nil_of_mem hvF) hallF
  rw [resolveBit_cases, hdedup]

/-- **C1**: for every wire bit, the resolved value is determined by the
per-bit combination rule over the multiset `D` of driven values: an
undriven (or all-HI_Z-driven) bit resolves to HI_Z; exactly one distinct
non-HI_Z value resolves to that value; two or more distinct non-HI_Z values
resolve to CONFLICT; UNKNOWN together with only HI_Z resolves to UNKNOWN;
and a bus is resolved bit by bit, so a 2-bit wire with bit 0 driven ONE and
bit 1 undriven resolves to [ONE, HI_Z]. -/
theorem resolveBit_combination_rule :
    (∀ D : List LogicValue,
      ((∀ v ∈ D, v = HI_Z) → resolveBit D = HI_Z) ∧
      (∀ v, v ≠ HI_Z → v ∈ D → (∀ w ∈ D, w = HI_Z ∨ w = v) → resolveBit D = v) ∧
      (∀ v w, v ∈ D → w ∈ D → v ≠ HI_Z → w ≠ HI_Z → v ≠ w →
        resolveBit D = CONFLICT) ∧
      (UNKNOWN ∈ D → (∀ w ∈ D, w = HI_Z ∨ w = UNKNOWN) →
        resolveBit D = UNKNOWN)) ∧
    (∀ bits : List (List LogicValue), resolveBus bits = bits.map resolveBit) ∧
    resolveBus [[ONE], []] = [ONE, HI_Z] := by
  refine ⟨fun D => ⟨?_, ?_, ?_, ?_⟩, fun bits => rfl, rfl⟩
  · intro hall
    have hF : D.filter (fun v => v ≠ HI_Z) = [] := by
      rw [List.filter_eq_nil_iff]
      intro a ha
      simp [hall a ha]
    rw [resolveBit_cases, hF]
    rfl
  · exact fun v hvne hv hall => resolveBit_of_single hvne hv hall
  · intro v w hv hw hvne hwne hne
    have hvF : v ∈ (D.filter (fun x => x ≠ HI_Z)).dedup :=
      List.mem_dedup.mpr (List.mem_filter.mpr ⟨hv, by simpa using hvne⟩)
    have hwF : w ∈ (D.filter (fun x => x ≠ HI_Z)).dedup :=
      List.mem_dedup.mpr (List.mem_filter.mpr ⟨hw, by simpa using hwne⟩)
    rw [resolveBit_cases]
    rcases hd : (D.filter (fun x => x ≠ HI_Z)).dedup with _ | ⟨a, _ | ⟨b, t⟩⟩
    · rw [hd] at hvF; simp at hvF
    · rw [hd] at hvF hwF
      simp at hvF hwF
      exact absurd (hvF.trans hwF.symm) hne
    · rfl
  · intro hu hall
    exact resolveBit_of_single (by simp) hu hall

/-- Witness for C1: the rule evaluated at concrete driver sets. -/
theorem resolveBit_combination_rule_witness :
    resolveBit [HI_Z, HI_Z] = HI_Z ∧ resolveBit [ONE, HI_Z, ONE] = ONE ∧
    resolveBit [ONE, ZERO] = CONFLICT ∧ resolveBit [UNKNOWN, HI_Z] = UNKNOWN := by
  refine ⟨?_, ?_, ?_, ?_⟩
  · exact (resolveBit_combination_rule.1 [HI_Z, HI_Z]).1 (by decide)
  · exact (resolveBit_combination_rule.1 [ONE, HI_Z, ONE]).2.1 ONE
      (by decide) (by decide) (by decide)
  · exact (resolveBit_combination_rule.1 [ONE, ZERO]).2.2.1 ONE ZERO
      (by decide) (by decide) (by decide) (by decide) (by decide)
  · exact (resolveBit_combination_rule.1 [UNKNOWN, HI_Z]).2.2.2
      (by decide) (by decide)

/-! ## C10: escapeXML -/

theorem escapeChar_no_raw (a ch : Char) (h : ch ∈ escapeChar a) :
    ch ≠ '<' ∧ ch ≠ '>' ∧ ch ≠ Char.ofNat 34 := by
  unfold escapeChar at h
  split_ifs at h with h1 h2 h3 h4 h5
  · have hm : ch ∈ ['&', 'a', 'm', 'p', ';'] := h
    fin_cases hm <;> decide
  · have hm : ch ∈ ['&', 'l', 't', ';'] := h
    fin_cases hm <;> decide
  · have hm : ch ∈ ['&', 'g', 't', ';'] := h
    fin_cases hm <;> decide
  · have hm : ch ∈ ['&', 'q', 'u', 'o', 't', ';'] := h
    fin_cases hm <;> decide
  · have hm : ch ∈ ['&', 'a', 'p', 'o', 's', ';'] := h
    fin_cases hm <;> decide
  · simp at h
    subst h
    exact ⟨h2, h3, h4⟩

/-- **C10**: `escapeXML` maps each of the five XML special characters to its
entity and leaves every other character unchanged, in order (it is a string
homomorphism determined by its action on single characters), and its output
never contains a raw less-than, greater-than or double-quote character. -/
theorem escapeXML_spec :
    (∀ s t : String, escapeXML (s ++ t) = escapeXML s ++ escapeXML t) ∧
    escapeXML (String.singleton '&') = "&amp;" ∧
    escapeXML (String.singleton '<') = "&lt;" ∧
    escapeXML (String.singleton '>') = "&gt;" ∧
    escapeXML (String.singleton (Char.ofNat 34)) = "&quot;" ∧
    escapeXML (String.singleton (Char.ofNat 39)) = "&apos;" ∧
    (∀ ch : Char, ch ≠ '&' → ch ≠ '<' → ch ≠ '>' → ch ≠ Char.ofNat 34 →
      ch ≠ Char.ofNat 39 → escapeXML (String.singleton ch) = String.singleton ch) ∧
    (∀ s : String, ∀ ch ∈ (escapeXML s).data,
      ch ≠ '<' ∧ ch ≠ '>' ∧ ch ≠ Char.ofNat 34) := by
  refine ⟨?_, by decide, by decide, by decide, by decide, by decide, ?_, ?_⟩
  · intro s t
    show String.mk ((s ++ t).data.flatMap escapeChar) = _
    rw [String.data_append, List.flatMap_append]
    rfl
  · intro ch h1 h2 h3 h4 h5
    show String.mk ([ch].flatMap escapeChar) = _
    simp [escapeChar, h1, h2, h3, h4, h5]
    rfl
  · intro s ch hch
    have hm : ch ∈ s.data.flatMap escapeChar := hch
    rcases List.mem_flatMap.mp hm with ⟨a, _, hcha⟩
    exact escapeChar_no_raw a ch hcha

/-- Witness for C10: the homomorphism and per-character clauses applied to
concrete strings. -/
theorem escapeXML_spec_witness :
    escapeXML ("a<b" ++ "&c") = escapeXML "a<b" ++ escapeXML "&c" ∧
    escapeXML (String.singleton 'x') = String.singleton 'x' ∧
    escapeXML "a<b&c" = "a&lt;b&amp;c" := by
  refine ⟨escapeXML_spec.1 "a<b" "&c",
    escapeXML_spec.2.2.2.2.2.2.1 'x' (by decide) (by decide) (by decide)
      (by decide) (by decide), by decide⟩

/-! ## C4: destroyAllEvents frame -/

/-- **C4**: `destroyAllEvents` empties the event queue and changes nothing
else: gates, wires (hence all connections) and the current simulated time
are untouched, `getSystemTime` afterwards returns the same time as before,
and a subsequent `step` with no pending events is a no-op returning an
empty changed set. -/
theorem destroyAllEvents_frame :
    ∀ (c : Circuit) (fuel : Nat),
      (c.destroyAllEvents).eventQueue = [] ∧
      (c.destroyAllEvents).getSystemTime = c.getSystemTime ∧
      (c.destroyAllEvents).gates = c.gates ∧
      (c.destroyAllEvents).wires = c.wires ∧
      (c.destroyAllEvents).step fuel = (c.destroyAllEvents, [], [], true) :=
  fun _ _ => ⟨rfl, rfl, rfl, rfl, rfl⟩

/-! ## C7: deleteGate detaches and is idempotent -/

/-- **C7**: deleting a known gate removes its identifier from every wire's
driver set, consumer set and recorded driver values (so resolving those
wires can never reference it again); deleting an unknown identifier changes
nothing; deletion is idempotent. -/
theorem deleteGate_detaches :
    ∀ (c : Circuit) (gid : IDType),
      ((alookup gid c.gates).isSome →
        ∀ wid w, alookup wid (c.deleteGate gid).wires = some w →
          (∀ d ∈ w.drivers, d.1 ≠ gid) ∧ (∀ d ∈ w.consumers, d.1 ≠ gid) ∧
          (∀ p ∈ w.driverValues, p.1.1 ≠ gid)) ∧
      alookup gid (c.deleteGate gid).gates = none ∧
      (alookup gid c.gates = none → c.deleteGate gid = c) ∧
      (c.deleteGate gid).deleteGate gid = c.deleteGate gid := by
  intro c gid
  have hnone : ∀ c2 : Circuit, alookup gid c2.gates = none → c2.deleteGate gid = c2 := by
    intro c2 h
    simp [Circuit.deleteGate, h]
  have hgone : alookup gid (c.deleteGate gid).gates = none := by
    by_cases h : (alookup gid c.gates).isSome
    · simp [Circuit.deleteGate, h, alookup_alistErase]
    · simp [Circuit.deleteGate, h]
      exact Option.not_isSome_iff_eq_none.mp h
  refine ⟨?_, hgone, hnone c, hnone (c.deleteGate gid) hgone⟩
  intro h wid w hw
  simp only [Circuit.deleteGate, h, if_true] at hw
  have : alookup wid (c.wires.map (fun p => (p.1, p.2.detachGate gid))) =
      (alookup wid c.wires).map (fun x => x.detachGate gid) :=
    alookup_map_value wid (fun x => x.detachGate gid) c.wires
  rw [this] at hw
  rcases hx : alookup wid c.wires with _ | w0
  · rw [hx] at hw; simp at hw
  · rw [hx] at hw
    simp at hw
    subst hw
    refine ⟨?_, ?_, ?_⟩
    · intro d hd
      have := List.of_mem_filter hd
      simpa using this
    · intro d hd
      have := List.of_mem_filter hd
      simpa using this
    · intro p hp
      have := List.of_mem_filter hp
      simpa using this

/-- Witness for C7: deleting gate 1 of the tiny demo circuit leaves wire 10
with no reference to it, and deleting an unknown gate changes nothing. -/
theorem deleteGate_detaches_witness :
    (∀ d ∈ (Wire.mk 1 [] [] []).drivers, d.1 ≠ 1) ∧
    Circuit.initial.deleteGate 5 = Circuit.initial := by
  refine ⟨((deleteGate_detaches demoTiny 1).1 (by decide) 10 ⟨1, [], [], []⟩
    (by decide)).1, (deleteGate_detaches Circuit.initial 5).2.2.1 (by decide)⟩

/-! ## C6: failed operations leave the circuit unchanged -/

/-- **C6**: every caller-programming error — unknown gate type, duplicate
explicit identifier, unknown gate/wire identifier, unknown port name, width
mismatch on connect, unknown parameter key or out-of-range parameter
value — makes the single operation fail, and a failed operation returns the
circuit exactly as it was: nothing is partially modified. -/
theorem failed_ops_unchanged :
    ∀ (c : Circuit) (gid wid : IDType) (gt p k v : String) (oid : Option IDType)
      (width : Nat),
      (gateTypeInputs gt = none → c.newGate gt oid = (c, none)) ∧
      (alookup gid c.gates ≠ none → c.newGate gt (some gid) = (c, none)) ∧
      (alookup wid c.wires ≠ none → c.newWire (some wid) width = (c, none)) ∧
      ((c.newGate gt oid).2 = none → (c.newGate gt oid).1 = c) ∧
      ((c.newWire oid width).2 = none → (c.newWire oid width).1 = c) ∧
      (alookup gid c.gates = none → c.connectGateInput gid p wid = (c, none)) ∧
      (alookup wid c.wires = none → c.connectGateInput gid p wid = (c, none)) ∧
      (∀ g w, alookup gid c.gates = some g → alookup wid c.wires = some w →
        ¬ (((gateTypeInputs g.gateType).getD []).contains p = true ∧ w.width = 1) →
        c.connectGateInput gid p wid = (c, none)) ∧
      ((c.connectGateInput gid p wid).2 = none →
        (c.connectGateInput gid p wid).1 = c) ∧
      ((c.connectGateOutput gid p wid).2 = none →
        (c.connectGateOutput gid p wid).1 = c) ∧
      (alookup gid c.gates = none → c.setGateParameter gid k v = (c, false)) ∧
      (∀ g, alookup gid c.gates = some g → paramValid g.gateType k v = false →
        c.setGateParameter gid k v = (c, false)) ∧
      ((c.setGateParameter gid k v).2 = false → (c.setGateParameter gid k v).1 = c) := by
  intro c gid wid gt p k v oid width
  refine ⟨?_, ?_, ?_, ?_, ?_, ?_, ?_, ?_, ?_, ?_, ?_, ?_, ?_⟩
  · intro h
    simp [Circuit.newGate, h]
  · intro h
    have h2 : (alookup gid c.gates).isSome = true := Option.isSome_iff_ne_none.mpr h
    by_cases h1 : (gateTypeInputs gt).isNone
    · simp [Circuit.newGate, h1]
    · simp [Circuit.newGate, h1, h2]
  · intro h
    have h2 : (alookup wid c.wires).isSome = true := Option.isSome_iff_ne_none.mpr h
    simp [Circuit.newWire, h2]
  · intro h
    by_cases h1 : (gateTypeInputs gt).isNone
    · simp [Circuit.newGate, h1]
    · cases oid with
      | none => simp [Circuit.newGate, h1] at h
      | some gid2 =>
          by_cases h2 : (alookup gid2 c.gates).isSome
          · simp [Circuit.newGate, h1, h2]
          · simp [Circuit.newGate, h1, h2] at h
  · intro h
    cases oid with
    | none => simp [Circuit.newWire] at h
    | some wid2 =>
        by_cases h2 : (alookup wid2 c.wires).isSome
        · simp [Circuit.newWire, h2]
        · simp [Circuit.newWire, h2] at h
  · intro h
    simp [Circuit.connectGateInput, h]
  · intro h
    cases hg : alookup gid c.gates with
    | none => simp [Circuit.connectGateInput, hg]
    | some g => simp [Circuit.connectGateInput, hg, h]
  · intro g w hg hw h
    have hc : ¬ ((((gateTypeInputs g.gateType).getD []).contains p) && (w.width == 1)) = true := by
      intro hcc
      simp only [Bool.and_eq_true] at hcc
      exact h ⟨hcc.1, by simpa using hcc.2⟩
    simp only [Circuit.connectGateInput, hg, hw]
    rw [if_neg hc]
  · intro h
    cases hg : alookup gid c.gates with
    | none => simp [Circuit.connectGateInput, hg]
    | some g =>
        cases hw : alookup wid c.wires with
        | none => simp [Circuit.connectGateInput, hg, hw]
        | some w =>
            simp only [Circuit.connectGateInput, hg, hw] at h ⊢
            by_cases hc : ((((gateTypeInputs g.gateType).getD []).contains p)
                && (w.width == 1)) = true
            · rw [if_pos hc] at h; simp at h
            · rw [if_neg hc]
  · intro h
    cases hg : alookup gid c.gates with
    | none => simp [Circuit.connectGateOutput, hg]
    | some g =>
        cases hw : alookup wid c.wires with
        | none => simp [Circuit.connectGateOutput, hg, hw]
        | some w =>
            simp only [Circuit.connectGateOutput, hg, hw] at h ⊢
            by_cases hc : ((((gateTypeOutputs g.gateType).getD []).contains p)
                && (w.width == 1)) = true
            · rw [if_pos hc] at h; simp at h
            · rw [if_neg hc]
  · intro h
    simp [Circuit.setGateParameter, h]
  · intro g hg h
    simp [Circuit.setGateParameter, hg, h]
  · intro h
    cases hg : alookup gid c.gates with
    | none => simp [Circuit.setGateParameter, hg]
    | some g =>
        simp only [Circuit.setGateParameter, hg] at h ⊢
        by_cases hc : paramValid g.gateType k v = true
        · rw [if_pos hc] at h; simp at h
        · rw [if_neg hc]

/-- Witness for C6: concrete failing operations on concrete circuits, each
leaving the circuit exactly as it was. -/
theorem failed_ops_unchanged_witness :
    Circuit.initial.newGate "FOO" none = (Circuit.initial, none) ∧
    demoTiny.newGate "CONST" (some 1) = (demoTiny, none) ∧
    demoTiny.newWire (some 10) 2 = (demoTiny, none) ∧
    Circuit.initial.connectGateInput 5 "IN_0" 3 = (Circuit.initial, none) ∧
    demoTiny.connectGateInput 1 "NOPE" 10 = (demoTiny, none) ∧
    demoTiny.setGateParameter 1 "BAD" "1" = (demoTiny, false) ∧
    demoTiny.setGateParameter 1 "VALUE" "7" = (demoTiny, false) := by
  refine ⟨(failed_ops_unchanged Circuit.initial 0 0 "FOO" "" "" "" none 1).1 (by decide),
    (failed_ops_unchanged demoTiny 1 0 "CONST" "" "" "" (some 1) 1).2.1 (by decide),
    (failed_ops_unchanged demoTiny 0 10 "" "" "" "" (some 10) 2).2.2.1 (by decide),
    (failed_ops_unchanged Circuit.initial 5 3 "" "IN_0" "" "" none 1).2.2.2.2.2.1 (by decide),
    (failed_ops_unchanged demoTiny 1 10 "" "NOPE" "" "" none 1).2.2.2.2.2.2.2.1
      ⟨"CONST", [], [("OUT", 10)], []⟩ ⟨1, [(1, "OUT")], [], []⟩
      (by decide) (by decide) (by decide),
    (failed_ops_unchanged demoTiny 1 0 "" "" "BAD" "1" none 1).2.2.2.2.2.2.2.2.2.2.2.1
      ⟨"CONST", [], [("OUT", 10)], []⟩ (by decide) (by decide),
    (failed_ops_unchanged demoTiny 1 0 "" "" "VALUE" "7" none 1).2.2.2.2.2.2.2.2.2.2.2.1
      ⟨"CONST", [], [("OUT", 10)], []⟩ (by decide) (by decide)⟩

/-! ## Queue machinery -/

theorem queueEvolves_refl (c : Circuit) : QueueEvolves c c :=
  ⟨rfl, Nat.le_refl _, fun _ he => Or.inl he⟩

theorem queueEvolves_trans {c1 c2 c3 : Circuit} (h12 : QueueEvolves c1 c2)
    (h23 : QueueEvolves c2 c3) : QueueEvolves c1 c3 := by
  obtain ⟨ht12, hs12, hq12⟩ := h12
  obtain ⟨ht23, hs23, hq23⟩ := h23
  refine ⟨ht23.trans ht12, hs12.trans hs23, ?_⟩
  intro e he
  rcases hq23 e he with h | h
  · exact hq12 e h
  · exact Or.inr (hs12.trans h)

theorem pushEvent_queue {c : Circuit} {t : TimeType} (tgt : EventTarget)
    (hwf : QueueWF c) (hle : c.systemTime ≤ t) :
    QueueWF (c.pushEvent t tgt) ∧ QueueEvolves c (c.pushEvent t tgt) := by
  obtain ⟨hpw, hbound, htime⟩ := hwf
  refine ⟨⟨?_, ?_, ?_⟩, rfl, Nat.le_succ _, ?_⟩
  · rw [show (c.pushEvent t tgt).eventQueue = c.eventQueue ++ [⟨t, c.nextSeq, tgt⟩] from rfl,
      List.pairwise_append]
    refine ⟨hpw, List.pairwise_singleton _ _, ?_⟩
    intro a ha b hb
    rcases List.mem_singleton.mp hb with rfl
    exact hbound a ha
  · intro e he
    rcases List.mem_append.mp he with h | h
    · exact Nat.lt_succ_of_lt (hbound e h)
    · rcases List.mem_singleton.mp h with rfl
      exact Nat.lt_succ_self _
  · intro e he
    rcases List.mem_append.mp he with h | h
    · exact htime e h
    · rcases List.mem_singleton.mp h with rfl
      exact hle
  · intro e he
    rcases List.mem_append.mp he with h | h
    · exact Or.inl h
    · rcases List.mem_singleton.mp h with rfl
      exact Or.inr (Nat.le_refl _)

theorem foldl_queue {α : Type} {f : Circuit → α → Circuit} {t : TimeType}
    (hf : ∀ c2 a, QueueWF c2 → c2.systemTime ≤ t →
      QueueWF (f c2 a) ∧ QueueEvolves c2 (f c2 a)) :
    ∀ (l : List α) (c : Circuit), QueueWF c → c.systemTime ≤ t →
      QueueWF (l.foldl f c) ∧ QueueEvolves c (l.foldl f c) := by
  intro l
  induction l with
  | nil => exact fun c hwf _ => ⟨hwf, queueEvolves_refl c⟩
  | cons a rest ih =>
      intro c hwf hle
      obtain ⟨hwf1, hev1⟩ := hf c a hwf hle
      have hle1 : (f c a).systemTime ≤ t := by rw [hev1.1]; exact hle
      obtain ⟨hwf2, hev2⟩ := ih (f c a) hwf1 hle1
      exact ⟨hwf2, queueEvolves_trans hev1 hev2⟩

theorem listMinTime_eq_none {q : List Event} : listMinTime q = none ↔ q = [] := by
  cases q with
  | nil => simp [listMinTime]
  | cons e rest => simp [listMinTime]

theorem listMinTime_le {q : List Event} : ∀ {t : TimeType},
    listMinTime q = some t → ∀ e ∈ q, t ≤ e.time := by
  induction q with
  | nil => intro t h; simp [listMinTime] at h
  | cons e rest ih =>
      intro t h x hx
      cases hr : listMinTime rest with
      | none =>
          have hrest : rest = [] := listMinTime_eq_none.mp hr
          subst hrest
          simp [listMinTime] at h
          rcases List.mem_cons.mp hx with h2 | h2
          · subst h2; exact Nat.le_of_eq h.symm
          · simp at h2
      | some t2 =>
          simp [listMinTime, hr] at h
          have hl : e.time ⊓ t2 ≤ e.time := min_le_left _ _
          have hrt : e.time ⊓ t2 ≤ t2 := min_le_right _ _
          rw [h] at hl hrt
          rcases List.mem_cons.mp hx with h2 | h2
          · rw [h2]; exact hl
          · exact le_trans hrt (ih hr x h2)

theorem listMinTime_mem {q : List Event} : ∀ {t : TimeType},
    listMinTime q = some t → ∃ e ∈ q, e.time = t := by
  induction q with
  | nil => intro t h; simp [listMinTime] at h
  | cons e rest ih =>
      intro t h
      cases hr : listMinTime rest with
      | none =>
          simp [listMinTime, hr] at h
          exact ⟨e, List.mem_cons_self e rest, h⟩
      | some t2 =>
          simp [listMinTime, hr] at h
          rcases Nat.le_total e.time t2 with hle | hle
          · refine ⟨e, List.mem_cons_self e rest, ?_⟩
            rw [← h, min_eq_left hle]
          · rcases ih hr with ⟨x, hx, hxt⟩
            refine ⟨x, List.mem_cons_of_mem e hx, ?_⟩
            rw [hxt, ← h, min_eq_right hle]

theorem evaluateGate_queue {c : Circuit} {t : TimeType} (gid : IDType)
    (hwf : QueueWF c) (hle : c.systemTime ≤ t) :
    QueueWF (c.evaluateGate t gid) ∧ QueueEvolves c (c.evaluateGate t gid) := by
  unfold Circuit.evaluateGate
  cases hg : alookup gid c.gates with
  | none => exact ⟨hwf, queueEvolves_refl c⟩
  | some g =>
      refine foldl_queue (t := t) ?_ _ c hwf hle
      intro c2 pv hwf2 hle2
      cases ho : alookup pv.1 g.outputs with
      | none => simpa [ho] using ⟨hwf2, queueEvolves_refl c2⟩
      | some wid =>
          cases hw : alookup wid c2.wires with
          | none => simpa [ho, hw] using ⟨hwf2, queueEvolves_refl c2⟩
          | some w =>
              by_cases hd : alookup (gid, pv.1) w.driverValues = some pv.2
              · simpa [ho, hw, hd] using ⟨hwf2, queueEvolves_refl c2⟩
              · simp only [ho, hw, if_neg hd]
                exact pushEvent_queue _ hwf2 (le_trans hle2 (Nat.le_add_right t _))

theorem applyEvent_queue {c : Circuit} {t : TimeType} (e : Event)
    (hwf : QueueWF c) (hle : c.systemTime ≤ t) :
    QueueWF (c.applyEvent t e).1 ∧ QueueEvolves c (c.applyEvent t e).1 := by
  unfold Circuit.applyEvent
  cases he : e.target with
  | wireTarget wid driver value =>
      cases hw : alookup wid c.wires with
      | none => simp only [hw]; exact ⟨hwf, queueEvolves_refl c⟩
      | some w =>
          simp only [hw]
          by_cases hr :
            ({ w with driverValues := alistInsert driver value w.driverValues } : Wire).resolve
              = w.resolve
          · rw [if_pos hr]
            exact ⟨hwf, ⟨rfl, Nat.le_refl _, fun _ hq => Or.inl hq⟩⟩
          · rw [if_neg hr]
            have hwf1 : QueueWF (c.updateWire wid (fun _ =>
                { w with driverValues := alistInsert driver value w.driverValues })) := hwf
            have h2 := foldl_queue (t := t)
              (fun c3 d hwf3 hle3 => pushEvent_queue (.gateTarget d.1) hwf3 hle3)
              w.consumers _ hwf1 hle
            refine ⟨h2.1, queueEvolves_trans ⟨rfl, Nat.le_refl _, fun _ hq => Or.inl hq⟩ h2.2⟩
  | gateTarget gid => exact evaluateGate_queue gid hwf hle

theorem processEvents_queue {t : TimeType} :
    ∀ (es : List Event) (c : Circuit), QueueWF c → c.systemTime ≤ t →
      QueueWF (c.processEvents t es).1 ∧ QueueEvolves c (c.processEvents t es).1 := by
  intro es
  induction es with
  | nil => exact fun c hwf _ => ⟨hwf, queueEvolves_refl c⟩
  | cons e rest ih =>
      intro c hwf hle
      obtain ⟨hwf1, hev1⟩ := applyEvent_queue (t := t) e hwf hle
      rcases hA : c.applyEvent t e with ⟨c1, s1⟩
      rw [hA] at hwf1 hev1
      have hle1 : c1.systemTime ≤ t := by rw [hev1.1]; exact hle
      obtain ⟨hwf2, hev2⟩ := ih c1 hwf1 hle1
      rcases hP : c1.processEvents t rest with ⟨c2, s2⟩
      rw [hP] at hwf2 hev2
      simp only [Circuit.processEvents, hA, hP]
      exact ⟨hwf2, queueEvolves_trans hev1 hev2⟩

theorem drainSlot_spec (t : TimeType) :
    ∀ (fuel : Nat) (c : Circuit) (lo : Nat),
      QueueWF c → c.systemTime ≤ t → lo ≤ c.nextSeq →
      (∀ e ∈ c.eventQueue, e.time = t → lo ≤ e.seq) →
      QueueWF (c.drainSlot t fuel).1 ∧
      (c.drainSlot t fuel).1.systemTime = c.systemTime ∧
      c.nextSeq ≤ (c.drainSlot t fuel).1.nextSeq ∧
      (∀ e ∈ (c.drainSlot t fuel).2.2.1, e.time = t ∧ lo ≤ e.seq) ∧
      (c.drainSlot t fuel).2.2.1.Pairwise (fun a b => a.seq < b.seq) ∧
      ((c.drainSlot t fuel).2.2.2 = true →
        ∀ e ∈ (c.drainSlot t fuel).1.eventQueue, e.time ≠ t) := by
  intro fuel
  induction fuel with
  | zero =>
      intro c lo hwf _ _ _
      have hz : c.drainSlot t 0 = (c, [], [], false) := rfl
      rw [hz]
      exact ⟨hwf, rfl, Nat.le_refl _, fun e he => absurd he (List.not_mem_nil e),
        List.Pairwise.nil, fun h => by simp at h⟩
  | succ fuel ih =>
      intro c lo hwf hle hlon hlo
      by_cases hb : (c.eventQueue.filter (fun e => e.time = t)).isEmpty = true
      · have heq : c.drainSlot t (fuel + 1) = (c, [], [], true) := by
          simp only [Circuit.drainSlot, hb, if_true]
        rw [heq]
        refine ⟨hwf, rfl, Nat.le_refl _, fun e he => absurd he (List.not_mem_nil e),
          List.Pairwise.nil, ?_⟩
        intro _ e heq2 het
        have hmem : e ∈ c.eventQueue.filter (fun e => e.time = t) :=
          List.mem_filter.mpr ⟨heq2, by simp [het]⟩
        rw [List.isEmpty_iff] at hb
        rw [hb] at hmem
        simp at hmem
      · have hb2 : (c.eventQueue.filter (fun e => e.time = t)).isEmpty = false := by
          simpa using hb
        have hwf1 : QueueWF ({ c with
            eventQueue := c.eventQueue.filter (fun e => ¬ e.time = t) }) :=
          ⟨hwf.1.sublist (List.filter_sublist _),
           fun e he => hwf.2.1 e (List.mem_of_mem_filter he),
           fun e he => hwf.2.2 e (List.mem_of_mem_filter he)⟩
        obtain ⟨hwfP, hevP⟩ := processEvents_queue (t := t)
          (c.eventQueue.filter (fun e => e.time = t)) _ hwf1 hle
        rcases hP : ({ c with
            eventQueue := c.eventQueue.filter (fun e => ¬ e.time = t) } :
              Circuit).processEvents t (c.eventQueue.filter (fun e => e.time = t))
          with ⟨c2, s⟩
        rw [hP] at hwfP hevP
        have hle2 : c2.systemTime ≤ t := by rw [hevP.1]; exact hle
        have hlon2 : c.nextSeq ≤ c2.nextSeq := hevP.2.1
        have hlo2 : ∀ e ∈ c2.eventQueue, e.time = t → c.nextSeq ≤ e.seq := by
          intro e he het
          rcases hevP.2.2 e he with hmem | hseq
          · exfalso
            have hmf := List.mem_filter.mp hmem
            simp [het] at hmf
          · exact hseq
        obtain ⟨ihwf, ihtime, ihseq, ihtrace, ihpw, ihdone⟩ :=
          ih c2 c.nextSeq hwfP hle2 hlon2 hlo2
        rcases hD : c2.drainSlot t fuel with ⟨c3, s3, tr3, d3⟩
        rw [hD] at ihwf ihtime ihseq ihtrace ihpw ihdone
        have hstep : c.drainSlot t (fuel + 1) =
            (c3, idUnion s s3, c.eventQueue.filter (fun e => e.time = t) ++ tr3, d3) := by
          simp only [Circuit.drainSlot, hb2, hP, hD]
          rw [if_neg]
          simp
        rw [hstep]
        refine ⟨ihwf, ?_, ?_, ?_, ?_, ?_⟩
        · show c3.systemTime = c.systemTime
          exact ihtime.trans hevP.1
        · show c.nextSeq ≤ c3.nextSeq
          exact le_trans hlon2 ihseq
        · show ∀ e ∈ c.eventQueue.filter (fun e => e.time = t) ++ tr3, _
          intro e he
          rcases List.mem_append.mp he with h | h
          · have hmf := List.mem_filter.mp h
            have het : e.time = t := by simpa using hmf.2
            exact ⟨het, hlo e hmf.1 het⟩
          · rcases ihtrace e h with ⟨het, hseq⟩
            exact ⟨het, le_trans hlon hseq⟩
        · show List.Pairwise _ (c.eventQueue.filter (fun e => e.time = t) ++ tr3)
          rw [List.pairwise_append]
          refine ⟨hwf.1.sublist (List.filter_sublist _), ihpw, ?_⟩
          intro a ha b hbm
          have ha2 : a.seq < c.nextSeq := hwf.2.1 a (List.mem_of_mem_filter ha)
          exact lt_of_lt_of_le ha2 (ihtrace b hbm).2
        · show d3 = true → ∀ e ∈ c3.eventQueue, e.time ≠ t
          exact ihdone

/-! ## C2: the scheduler's ordering contract -/

/-- **C2**: under the queue invariant, a `step` call processes events only
from the slot whose time is the queue's minimum — each processed event is
applied exactly at its scheduled time, which is never before the current
simulated time — and processes same-time events in insertion order (their
sequence numbers strictly increase along the processing trace).  When the
drain completed (the iteration bound was not hit), no event at the drained
time remains queued.  Afterwards the current time is set to the next
event's time, or left unchanged if the queue is empty; a step on an empty
queue is a no-op with an empty changed set. -/
theorem step_scheduler_spec :
    ∀ (c : Circuit) (fuel : Nat), QueueWF c →
      (∀ e ∈ (c.step fuel).2.2.1,
        listMinTime c.eventQueue = some e.time ∧ c.systemTime ≤ e.time) ∧
      (c.step fuel).2.2.1.Pairwise (fun a b => a.seq < b.seq) ∧
      ((c.step fuel).2.2.2 = true → ∀ tm, listMinTime c.eventQueue = some tm →
        ∀ e ∈ (c.step fuel).1.eventQueue, e.time ≠ tm) ∧
      (c.step fuel).1.systemTime =
        (listMinTime (c.step fuel).1.eventQueue).getD c.systemTime ∧
      (c.eventQueue = [] → (c.step fuel).1 = c ∧ (c.step fuel).2.1 = []) := by
  intro c fuel hwf
  cases h : listMinTime c.eventQueue with
  | none =>
      have hs : c.step fuel = (c, [], [], true) := by
        simp only [Circuit.step, h]
      rw [hs]
      refine ⟨fun e he => absurd he (List.not_mem_nil e), List.Pairwise.nil, ?_, ?_, ?_⟩
      · intro _ tm htm
        simp at htm
      · show c.systemTime = (listMinTime c.eventQueue).getD c.systemTime
        rw [h]
        rfl
      · exact fun _ => ⟨rfl, rfl⟩
  | some t =>
      have hle : c.systemTime ≤ t := by
        rcases listMinTime_mem h with ⟨e, he, het⟩
        rw [← het]
        exact hwf.2.2 e he
      have hspec := drainSlot_spec t fuel c 0 hwf hle (Nat.zero_le _)
        (fun e _ _ => Nat.zero_le _)
      rcases hD : c.drainSlot t fuel with ⟨c1, s1, tr1, d1⟩
      rw [hD] at hspec
      obtain ⟨ihwf, ihtime, _, ihtrace, ihpw, ihdone⟩ := hspec
      have hs : c.step fuel =
          ({ c1 with systemTime := (listMinTime c1.eventQueue).getD c1.systemTime },
           s1, tr1, d1) := by
        simp only [Circuit.step, h, hD]
      rw [hs]
      refine ⟨?_, ihpw, ?_, ?_, ?_⟩
      · intro e he
        have het := (ihtrace e he).1
        refine ⟨?_, het ▸ hle⟩
        rw [het]
      · intro hdone tm htm
        cases htm
        exact fun e he => ihdone hdone e he
      · show (listMinTime c1.eventQueue).getD c1.systemTime =
          (listMinTime c1.eventQueue).getD c.systemTime
        rw [ihtime]
      · intro hq
        rw [hq] at h
        simp [listMinTime] at h

/-- Witness for C2: the scheduler contract evaluated on the settled
demonstration circuit with a pending re-evaluation event. -/
theorem step_scheduler_spec_witness :
    (demoFlip.step 8).2.2.1.Pairwise (fun a b => a.seq < b.seq) ∧
    (demoFlip.step 8).1.systemTime =
      (listMinTime (demoFlip.step 8).1.eventQueue).getD demoFlip.systemTime := by
  have h := step_scheduler_spec demoFlip 8 (by decide)
  exact ⟨h.2.1, h.2.2.2.1⟩

/-! ## C3 and C9: stepN -/

theorem mem_idInsert {a x : IDType} : ∀ {l : List IDType},
    a ∈ idInsert x l ↔ a = x ∨ a ∈ l := by
  intro l
  induction l with
  | nil => simp [idInsert]
  | cons y rest ih =>
      unfold idInsert
      split_ifs with h1 h2
      · simp
      · subst h2
        simp [List.mem_cons]
      · simp only [List.mem_cons, ih]
        tauto

theorem idInsert_sorted {x : IDType} : ∀ {l : List IDType},
    l.Pairwise (· < ·) → (idInsert x l).Pairwise (· < ·) := by
  intro l
  induction l with
  | nil => intro _; simp [idInsert]
  | cons y rest ih =>
      intro hp
      rcases List.pairwise_cons.mp hp with ⟨hy, hrest⟩
      unfold idInsert
      split_ifs with h1 h2
      · refine List.pairwise_cons.mpr ⟨?_, hp⟩
        intro b hb
        rcases List.mem_cons.mp hb with rfl | hb2
        · exact h1
        · exact Nat.lt_trans h1 (hy b hb2)
      · exact hp
      · refine List.pairwise_cons.mpr ⟨?_, ih hrest⟩
        intro b hb
        rcases mem_idInsert.mp hb with hbx | hb2
        · subst hbx
          exact Nat.lt_of_le_of_ne (Nat.le_of_not_lt h1) (fun he => h2 he.symm)
        · exact hy b hb2

theorem mem_idUnion {a : IDType} : ∀ (l s : List IDType),
    a ∈ idUnion s l ↔ a ∈ s ∨ a ∈ l := by
  intro l
  induction l with
  | nil => simp [idUnion]
  | cons x rest ih =>
      intro s
      show a ∈ idUnion (idInsert x s) rest ↔ _
      rw [ih (idInsert x s)]
      simp only [mem_idInsert, List.mem_cons]
      tauto

theorem idUnion_sorted : ∀ (l s : List IDType),
    s.Pairwise (· < ·) → (idUnion s l).Pairwise (· < ·) := by
  intro l
  induction l with
  | nil => exact fun s hs => hs
  | cons x rest ih => exact fun s hs => ih (idInsert x s) (idInsert_sorted hs)

theorem sorted_nodup {l : List IDType} (h : l.Pairwise (· < ·)) : l.Nodup :=
  h.imp Nat.ne_of_lt

theorem stepNLoop_spec (fuel : Nat) :
    ∀ (n : Nat) (c : Circuit) (acc : List IDType),
      (CircuitWrapper.stepNLoop fuel n c acc).1 = stepIter fuel n c ∧
      (∀ wid, wid ∈ (CircuitWrapper.stepNLoop fuel n c acc).2 ↔
        wid ∈ acc ∨ wid ∈ unionChanged fuel n c) ∧
      (acc.Pairwise (· < ·) →
        (CircuitWrapper.stepNLoop fuel n c acc).2.Pairwise (· < ·)) := by
  intro n
  induction n with
  | zero =>
      intro c acc
      exact ⟨rfl, fun wid => by simp [CircuitWrapper.stepNLoop, unionChanged],
        fun h => h⟩
  | succ n ih =>
      intro c acc
      rcases hs : c.step fuel with ⟨c1, s, tr, d⟩
      have hunf : CircuitWrapper.stepNLoop fuel (n + 1) c acc =
          CircuitWrapper.stepNLoop fuel n c1 (idUnion acc s) := by
        simp [CircuitWrapper.stepNLoop, hs]
      rw [hunf]
      obtain ⟨ih1, ih2, ih3⟩ := ih c1 (idUnion acc s)
      refine ⟨?_, ?_, ?_⟩
      · rw [ih1]
        show stepIter fuel n c1 = stepIter fuel (n + 1) c
        simp [stepIter, hs]
      · intro wid
        rw [ih2 wid, mem_idUnion]
        have hu : unionChanged fuel (n + 1) c = s ++ unionChanged fuel n c1 := by
          simp [unionChanged, hs]
        rw [hu]
        simp only [List.mem_append]
        tauto
      · intro hacc
        exact ih3 (idUnion_sorted s acc hacc)

/-- **C3**: `stepN(n)` returns exactly the set-union of the changed-wire
sets produced by `n` successive `step()` calls — a wire is reported iff it
changed in some step, and each wire appears once — together with the
circuit, and so the simulated time, after the nth step. -/
theorem stepN_eq_iterated_steps :
    ∀ (fuel n : Nat) (c : Circuit),
      (CircuitWrapper.stepN fuel n c).1 = stepIter fuel n c ∧
      (∀ wid, wid ∈ (CircuitWrapper.stepN fuel n c).2 ↔
        wid ∈ unionChanged fuel n c) ∧
      (CircuitWrapper.stepN fuel n c).2.Nodup ∧
      (CircuitWrapper.stepN fuel n c).1.getSystemTime =
        (stepIter fuel n c).getSystemTime := by
  intro fuel n c
  obtain ⟨h1, h2, h3⟩ := stepNLoop_spec fuel n c []
  refine ⟨h1, ?_, sorted_nodup (h3 List.Pairwise.nil), ?_⟩
  · intro wid
    rw [show CircuitWrapper.stepN fuel n c = CircuitWrapper.stepNLoop fuel n c []
      from rfl, h2 wid]
    simp
  · show (CircuitWrapper.stepNLoop fuel n c []).1.getSystemTime = _
    rw [h1]

/-- Witness for C3: on the demonstration circuit, three steps report wires
10 and 12 (each once), matching membership in the per-step union. -/
theorem stepN_eq_iterated_steps_witness :
    (CircuitWrapper.stepN 8 3 demoFlip).2 = [10, 12] ∧
    (10 ∈ (CircuitWrapper.stepN 8 3 demoFlip).2 ↔
      10 ∈ unionChanged 8 3 demoFlip) :=
  ⟨by decide, (stepN_eq_iterated_steps 8 3 demoFlip).2.1 10⟩

/-- **C9**: every entry of `stepN`'s report carries the wire state queried
from the circuit after the final step (a wire that changed several times is
reported once, with its last state only); each wire appears exactly once;
and the reported wires are exactly those changed in some step. -/
theorem stepNReport_spec :
    ∀ (fuel n : Nat) (c : Circuit),
      (∀ p ∈ CircuitWrapper.stepNReport fuel n c,
        p.2 = (stepIter fuel n c).getWireState p.1) ∧
      ((CircuitWrapper.stepNReport fuel n c).map Prod.fst).Nodup ∧
      (∀ wid, wid ∈ (CircuitWrapper.stepNReport fuel n c).map Prod.fst ↔
        wid ∈ unionChanged fuel n c) := by
  intro fuel n c
  obtain ⟨h1, h2, h3⟩ := stepNLoop_spec fuel n c []
  have hrep : CircuitWrapper.stepNReport fuel n c =
      (CircuitWrapper.stepNLoop fuel n c []).2.map
        (fun wid => (wid, (stepIter fuel n c).getWireState wid)) := by
    show (CircuitWrapper.stepNLoop fuel n c []).2.map
        (fun wid => (wid, (CircuitWrapper.stepNLoop fuel n c []).1.getWireState wid))
      = _
    simp only [h1]
  rw [hrep]
  have hid : (Prod.fst ∘ fun wid : IDType =>
      (wid, (stepIter fuel n c).getWireState wid)) = id := rfl
  refine ⟨?_, ?_, ?_⟩
  · intro p hp
    rcases List.mem_map.mp hp with ⟨wid, _, hw⟩
    rw [← hw]
  · rw [List.map_map, hid, List.map_id]
    exact sorted_nodup (h3 List.Pairwise.nil)
  · intro wid
    rw [List.map_map, hid, List.map_id, h2 wid]
    simp

/-- Witness for C9: in the demonstration run, wire 10 changes in the second
step and is reported once, with its final state. -/
theorem stepNReport_spec_witness :
    (10, [LogicValue.ZERO]) ∈ CircuitWrapper.stepNReport 8 3 demoFlip ∧
    [LogicValue.ZERO] = (stepIter 8 3 demoFlip).getWireState 10 := by
  refine ⟨by decide, ?_⟩
  exact (stepNReport_spec 8 3 demoFlip).1 (10, [LogicValue.ZERO]) (by decide)

/-! ## C8: stepOnlyGates -/

theorem pushFold_frame (l : List (IDType × String)) :
    ∀ c : Circuit,
      ∃ ex : List Event,
        (l.foldl (fun a d => a.pushEvent a.systemTime (EventTarget.gateTarget d.1))
          c).eventQueue = c.eventQueue ++ ex ∧
        (l.foldl (fun a d => a.pushEvent a.systemTime (EventTarget.gateTarget d.1))
          c).systemTime = c.systemTime := by
  induction l with
  | nil => exact fun c => ⟨[], by simp, rfl⟩
  | cons d rest ih =>
      intro c
      rcases ih (c.pushEvent c.systemTime (.gateTarget d.1)) with ⟨ex, hq, ht⟩
      refine ⟨⟨c.systemTime, c.nextSeq, .gateTarget d.1⟩ :: ex, ?_, ?_⟩
      · rw [List.foldl_cons, hq]
        simp [Circuit.pushEvent]
      · rw [List.foldl_cons, ht]
        rfl

theorem driveOutput_frame (c : Circuit) (gid : IDType) (g : Gate)
    (pv : String × List LogicValue) :
    ∃ ex, (c.driveOutput gid g pv).1.eventQueue = c.eventQueue ++ ex ∧
      (c.driveOutput gid g pv).1.systemTime = c.systemTime := by
  cases ho : alookup pv.1 g.outputs with
  | none =>
      have he : c.driveOutput gid g pv = (c, []) := by
        simp [Circuit.driveOutput, ho]
      rw [he]
      exact ⟨[], by simp, rfl⟩
  | some wid =>
      cases hw : alookup wid c.wires with
      | none =>
          have he : c.driveOutput gid g pv = (c, []) := by
            simp [Circuit.driveOutput, ho, hw]
          rw [he]
          exact ⟨[], by simp, rfl⟩
      | some w =>
          by_cases hr : ({ w with
              driverValues := alistInsert (gid, pv.1) pv.2 w.driverValues } : Wire).resolve
            = w.resolve
          · have he : c.driveOutput gid g pv = (c.updateWire wid (fun _ =>
                { w with driverValues := alistInsert (gid, pv.1) pv.2 w.driverValues }),
                []) := by
              simp [Circuit.driveOutput, ho, hw, hr]
            rw [he]
            exact ⟨[], by simp [Circuit.updateWire], rfl⟩
          · have he : c.driveOutput gid g pv = (w.consumers.foldl
                (fun a d => a.pushEvent a.systemTime (EventTarget.gateTarget d.1))
                (c.updateWire wid (fun _ =>
                  { w with driverValues := alistInsert (gid, pv.1) pv.2 w.driverValues })),
                [wid]) := by
              simp [Circuit.driveOutput, ho, hw, hr]
            rw [he]
            obtain ⟨ex, hq, ht⟩ := pushFold_frame w.consumers
              (c.updateWire wid (fun _ =>
                { w with driverValues := alistInsert (gid, pv.1) pv.2 w.driverValues }))
            exact ⟨ex, hq, ht⟩

theorem driveOutputs_frame (gid : IDType) (g : Gate) :
    ∀ (l : List (String × List LogicValue)) (c : Circuit),
      ∃ ex, (c.driveOutputs gid g l).1.eventQueue = c.eventQueue ++ ex ∧
        (c.driveOutputs gid g l).1.systemTime = c.systemTime := by
  intro l
  induction l with
  | nil => exact fun c => ⟨[], by simp [Circuit.driveOutputs], rfl⟩
  | cons pv rest ih =>
      intro c
      rcases hd : c.driveOutput gid g pv with ⟨c1, s1⟩
      have h1 := driveOutput_frame c gid g pv
      rw [hd] at h1
      rcases h1 with ⟨ex1, hq1, ht1⟩
      have hq1b : c1.eventQueue = c.eventQueue ++ ex1 := hq1
      have ht1b : c1.systemTime = c.systemTime := ht1
      rcases hD : c1.driveOutputs gid g rest with ⟨c2, s2⟩
      have h2 := ih c1
      rw [hD] at h2
      rcases h2 with ⟨ex2, hq2, ht2⟩
      have hq2b : c2.eventQueue = c1.eventQueue ++ ex2 := hq2
      have ht2b : c2.systemTime = c1.systemTime := ht2
      have hunf : c.driveOutputs gid g (pv :: rest) = (c2, idUnion s1 s2) := by
        simp [Circuit.driveOutputs, hd, hD]
      rw [hunf]
      exact ⟨ex1 ++ ex2, by rw [show (c2, idUnion s1 s2).1 = c2 from rfl, hq2b, hq1b,
        List.append_assoc], by rw [show (c2, idUnion s1 s2).1 = c2 from rfl, ht2b, ht1b]⟩

theorem stepGate_frame (c : Circuit) (gid : IDType) :
    ∃ ex, (c.stepGate gid).1.eventQueue = c.eventQueue ++ ex ∧
      (c.stepGate gid).1.systemTime = c.systemTime := by
  unfold Circuit.stepGate
  cases hg : alookup gid c.gates with
  | none => exact ⟨[], by simp, rfl⟩
  | some g => exact driveOutputs_frame gid g _ c

theorem stepGatesFrom_frame :
    ∀ (l : List IDType) (c : Circuit),
      ∃ ex, (c.stepGatesFrom l).1.eventQueue = c.eventQueue ++ ex ∧
        (c.stepGatesFrom l).1.systemTime = c.systemTime := by
  intro l
  induction l with
  | nil => exact fun c => ⟨[], by simp [Circuit.stepGatesFrom], rfl⟩
  | cons gid rest ih =>
      intro c
      rcases hd : c.stepGate gid with ⟨c1, s1⟩
      have h1 := stepGate_frame c gid
      rw [hd] at h1
      rcases h1 with ⟨ex1, hq1, ht1⟩
      have hq1b : c1.eventQueue = c.eventQueue ++ ex1 := hq1
      have ht1b : c1.systemTime = c.systemTime := ht1
      rcases hD : c1.stepGatesFrom rest with ⟨c2, s2⟩
      have h2 := ih c1
      rw [hD] at h2
      rcases h2 with ⟨ex2, hq2, ht2⟩
      have hq2b : c2.eventQueue = c1.eventQueue ++ ex2 := hq2
      have ht2b : c2.systemTime = c1.systemTime := ht2
      have hunf : c.stepGatesFrom (gid :: rest) = (c2, idUnion s1 s2) := by
        simp [Circuit.stepGatesFrom, hd, hD]
      rw [hunf]
      exact ⟨ex1 ++ ex2, by rw [show (c2, idUnion s1 s2).1 = c2 from rfl, hq2b, hq1b,
        List.append_assoc], by rw [show (c2, idUnion s1 s2).1 = c2 from rfl, ht2b, ht1b]⟩

theorem driveOutput_of_recorded {c : Circuit} {gid : IDType} {g : Gate}
    {pv : String × List LogicValue}
    (h : ∀ wid, alookup pv.1 g.outputs = some wid →
      ∀ w, alookup wid c.wires = some w →
        alookup (gid, pv.1) w.driverValues = some pv.2) :
    c.driveOutput gid g pv = (c, []) := by
  cases ho : alookup pv.1 g.outputs with
  | none => simp [Circuit.driveOutput, ho]
  | some wid =>
      cases hw : alookup wid c.wires with
      | none => simp [Circuit.driveOutput, ho, hw]
      | some w =>
          have hd := h wid ho w hw
          have hw2 : ({ w with
              driverValues := alistInsert (gid, pv.1) pv.2 w.driverValues } : Wire) = w := by
            rw [alistInsert_of_alookup_eq hd]
          have hc1 : c.updateWire wid (fun _ => w) = c := by
            unfold Circuit.updateWire
            rw [updateFirst_of_alookup (fun _ => w) hw rfl]
          have he : c.driveOutput gid g pv = (c.updateWire wid (fun _ => w), []) := by
            simp [Circuit.driveOutput, ho, hw, hw2]
          rw [he, hc1]

theorem driveOutputs_fixed {c : Circuit} {gid : IDType} {g : Gate} :
    ∀ {l : List (String × List LogicValue)},
      (∀ pv ∈ l, c.driveOutput gid g pv = (c, [])) →
      c.driveOutputs gid g l = (c, []) := by
  intro l
  induction l with
  | nil => intro _; rfl
  | cons pv rest ih =>
      intro h
      have h1 := h pv (List.mem_cons_self pv rest)
      have h2 := ih (fun q hq => h q (List.mem_cons_of_mem pv hq))
      simp [Circuit.driveOutputs, h1, h2, idUnion]

theorem stepGate_settled {c : Circuit} {gid : IDType}
    (h : c.gateSettled gid = true) : c.stepGate gid = (c, []) := by
  unfold Circuit.stepGate
  cases hg : alookup gid c.gates with
  | none => rfl
  | some g =>
      unfold Circuit.gateSettled at h
      rw [hg] at h
      refine driveOutputs_fixed ?_
      intro pv hpv
      refine driveOutput_of_recorded ?_
      intro wid ho w hw
      have hall := List.all_eq_true.mp h pv hpv
      rw [ho] at hall
      dsimp only at hall
      rw [hw] at hall
      dsimp only at hall
      exact eq_of_beq hall

theorem stepGatesFrom_fixed {c : Circuit} :
    ∀ {l : List IDType}, (∀ gid ∈ l, c.stepGate gid = (c, [])) →
      c.stepGatesFrom l = (c, []) := by
  intro l
  induction l with
  | nil => intro _; rfl
  | cons gid rest ih =>
      intro h
      have h1 := h gid (List.mem_cons_self gid rest)
      have h2 := ih (fun q hq => h q (List.mem_cons_of_mem gid hq))
      simp [Circuit.stepGatesFrom, h1, h2, idUnion]

/-- **C8**: the gates-only step re-evaluates all gates without consuming
events from the time queue (the old queue is a prefix of the new one) and
without advancing the simulated time; and when no gate input has changed
since the last call (the circuit is settled: every gate's recorded driven
values already match its evaluation), it changes nothing — repeated calls
never add entries to the changed-wire set. -/
theorem stepOnlyGates_spec :
    ∀ c : Circuit,
      (∃ ex, (c.stepOnlyGates).1.eventQueue = c.eventQueue ++ ex) ∧
      (c.stepOnlyGates).1.systemTime = c.systemTime ∧
      (c.settled → c.stepOnlyGates = (c, []) ∧
        ((c.stepOnlyGates).1.stepOnlyGates).2 = []) := by
  intro c
  obtain ⟨ex, hq, ht⟩ := stepGatesFrom_frame (c.gates.map Prod.fst) c
  refine ⟨⟨ex, hq⟩, ht, ?_⟩
  intro hs
  have hfix : c.stepOnlyGates = (c, []) := by
    refine stepGatesFrom_fixed ?_
    intro gid hgid
    exact stepGate_settled (hs gid hgid)
  refine ⟨hfix, ?_⟩
  rw [hfix]
  rw [show ((c, ([] : List IDType))).1 = c from rfl, hfix]

/-- Witness for C8: the settled demonstration circuit is unchanged by a
gates-only step, and a repeated call reports no changed wires. -/
theorem stepOnlyGates_spec_witness :
    demoSettled.stepOnlyGates = (demoSettled, []) ∧
    ((demoSettled.stepOnlyGates).1.stepOnlyGates).2 = [] :=
  (stepOnlyGates_spec demoSettled).2.2 (by decide)

/-! ## C5: the simulated time -/

/-- Counterexample to C5 as stated: a circuit reached from `Circuit.initial`
through the public API whose simulated time is 6; `destroyAllEvents` leaves
the time at 6 — it does not reset it to 0. -/
theorem destroyAllEvents_no_reset :
    demoEnd.getSystemTime = 6 ∧
    (demoEnd.destroyAllEvents).getSystemTime = 6 ∧
    ¬ (demoEnd.destroyAllEvents).getSystemTime = 0 := by
  refine ⟨by decide, by decide, by decide⟩

/-- **C5** (amended): the simulated time starts at 0, never decreases under
`step`, and is changed by no other operation; `destroyAllEvents` empties the
queue without altering the current time, the gates or the wires (it does
not reset the time to 0). -/
theorem systemTime_spec :
    Circuit.initial.systemTime = 0 ∧
    (∀ (c : Circuit) (fuel : Nat), QueueWF c →
      c.systemTime ≤ (c.step fuel).1.systemTime) ∧
    (∀ (c : Circuit) (gt : String) (oid : Option IDType),
      (c.newGate gt oid).1.systemTime = c.systemTime) ∧
    (∀ (c : Circuit) (oid : Option IDType) (width : Nat),
      (c.newWire oid width).1.systemTime = c.systemTime) ∧
    (∀ (c : Circuit) (gid : IDType), (c.deleteGate gid).systemTime = c.systemTime) ∧
    (∀ (c : Circuit) (wid : IDType), (c.deleteWire wid).systemTime = c.systemTime) ∧
    (∀ (c : Circuit) (gid : IDType) (p : String) (wid : IDType),
      (c.connectGateInput gid p wid).1.systemTime = c.systemTime) ∧
    (∀ (c : Circuit) (gid : IDType) (p : String) (wid : IDType),
      (c.connectGateOutput gid p wid).1.systemTime = c.systemTime) ∧
    (∀ (c : Circuit) (gid : IDType) (p : String),
      (c.disconnectGateInput gid p).systemTime = c.systemTime) ∧
    (∀ (c : Circuit) (gid : IDType) (p : String),
      (c.disconnectGateOutput gid p).systemTime = c.systemTime) ∧
    (∀ (c : Circuit) (gid : IDType) (k v : String),
      (c.setGateParameter gid k v).1.systemTime = c.systemTime) ∧
    (∀ c : Circuit, (c.stepOnlyGates).1.systemTime = c.systemTime) ∧
    (∀ c : Circuit, (c.destroyAllEvents).systemTime = c.systemTime ∧
      (c.destroyAllEvents).eventQueue = [] ∧
      (c.destroyAllEvents).gates = c.gates ∧
      (c.destroyAllEvents).wires = c.wires) := by
  refine ⟨rfl, ?_, ?_, ?_, ?_, ?_, ?_, ?_, ?_, ?_, ?_,
    fun c => by
      obtain ⟨ex, _, ht⟩ := stepGatesFrom_frame (c.gates.map Prod.fst) c
      exact ht,
    fun c => ⟨rfl, rfl, rfl, rfl⟩⟩
  · intro c fuel hwf
    cases h : listMinTime c.eventQueue with
    | none =>
        have hs : c.step fuel = (c, [], [], true) := by
          simp only [Circuit.step, h]
        rw [hs]
    | some t =>
        have hle : c.systemTime ≤ t := by
          rcases listMinTime_mem h with ⟨e, he, het⟩
          rw [← het]
          exact hwf.2.2 e he
        have hspec := drainSlot_spec t fuel c 0 hwf hle (Nat.zero_le _)
          (fun e _ _ => Nat.zero_le _)
        rcases hD : c.drainSlot t fuel with ⟨c1, s1, tr1, d1⟩
        rw [hD] at hspec
        obtain ⟨ihwf, ihtime, _, _, _, _⟩ := hspec
        have hs : c.step fuel =
            ({ c1 with systemTime := (listMinTime c1.eventQueue).getD c1.systemTime },
             s1, tr1, d1) := by
          simp only [Circuit.step, h, hD]
        rw [hs]
        show c.systemTime ≤ (listMinTime c1.eventQueue).getD c1.systemTime
        cases h2 : listMinTime c1.eventQueue with
        | none =>
            show c.systemTime ≤ c1.systemTime
            rw [show c1.systemTime = c.systemTime from ihtime]
        | some t2 =>
            show c.systemTime ≤ t2
            rcases listMinTime_mem h2 with ⟨e, he, het⟩
            have := ihwf.2.2 e he
            rw [het, show c1.systemTime = c.systemTime from ihtime] at this
            exact this
  · intro c gt oid
    by_cases h1 : (gateTypeInputs gt).isNone
    · simp [Circuit.newGate, h1]
    · cases oid with
      | none => simp [Circuit.newGate, h1]
      | some gid =>
          by_cases h2 : (alookup gid c.gates).isSome
          · simp [Circuit.newGate, h1, h2]
          · simp [Circuit.newGate, h1, h2]
  · intro c oid width
    cases oid with
    | none => simp [Circuit.newWire]
    | some wid =>
        by_cases h2 : (alookup wid c.wires).isSome
        · simp [Circuit.newWire, h2]
        · simp [Circuit.newWire, h2]
  · intro c gid
    by_cases h : (alookup gid c.gates).isSome
    · simp [Circuit.deleteGate, h]
    · simp [Circuit.deleteGate, h]
  · intro c wid
    by_cases h : (alookup wid c.wires).isSome
    · simp [Circuit.deleteWire, h]
    · simp [Circuit.deleteWire, h]
  · intro c gid p wid
    cases hg : alookup gid c.gates with
    | none => simp [Circuit.connectGateInput, hg]
    | some g =>
        cases hw : alookup wid c.wires with
        | none => simp [Circuit.connectGateInput, hg, hw]
        | some w =>
            cases hi : alookup p g.inputs with
            | none =>
                simp only [Circuit.connectGateInput, hg, hw, hi]
                split <;> rfl
            | some oldw =>
                simp only [Circuit.connectGateInput, hg, hw, hi]
                split <;> rfl
  · intro c gid p wid
    cases hg : alookup gid c.gates with
    | none => simp [Circuit.connectGateOutput, hg]
    | some g =>
        cases hw : alookup wid c.wires with
        | none => simp [Circuit.connectGateOutput, hg, hw]
        | some w =>
            cases hi : alookup p g.outputs with
            | none =>
                simp only [Circuit.connectGateOutput, hg, hw, hi]
                split <;> rfl
            | some oldw =>
                simp only [Circuit.connectGateOutput, hg, hw, hi]
                split <;> rfl
  · intro c gid p
    cases hg : alookup gid c.gates with
    | none => simp [Circuit.disconnectGateInput, hg]
    | some g =>
        cases hi : alookup p g.inputs with
        | none => simp [Circuit.disconnectGateInput, hg, hi]
        | some wid => simp [Circuit.disconnectGateInput, hg, hi, Circuit.updateWire,
            Circuit.updateGate]
  · intro c gid p
    cases hg : alookup gid c.gates with
    | none => simp [Circuit.disconnectGateOutput, hg]
    | some g =>
        cases hi : alookup p g.outputs with
        | none => simp [Circuit.disconnectGateOutput, hg, hi]
        | some wid => simp [Circuit.disconnectGateOutput, hg, hi, Circuit.updateWire,
            Circuit.updateGate]
  · intro c gid k v
    cases hg : alookup gid c.gates with
    | none => simp [Circuit.setGateParameter, hg]
    | some g =>
        by_cases hp : paramValid g.gateType k v = true
        · simp [Circuit.setGateParameter, hg, hp, Circuit.pushEvent, Circuit.updateGate]
        · simp [Circuit.setGateParameter, hg, hp]

/-- Witness for C5: the initial circuit starts at time 0 and a step on the
settled demonstration circuit does not decrease the time. -/
theorem systemTime_spec_witness :
    demoFlip.systemTime ≤ (demoFlip.step 8).1.systemTime :=
  systemTime_spec.2.1 demoFlip 8 (by decide)

end CedarLogic
